import Mathlib

/-!
Shallow embedding of `simularity_set.py`: the `bounding_box` value type and the
`simularity_set` class (adjacency discovery over a label image, pair removal with
region-liveness pruning, bounding-box geometry, and the size/fill/color similarity
metrics).  Python sets become `Finset`s, the label image becomes a dimensioned
function, operations that can raise (`set.remove` / `min([])`) return `Option`,
and real-valued similarity scores are modelled over `ℚ`.
-/

set_option autoImplicit false

/-- The identity tag carried by a `bounding_box`: `create_bounding_box` tags a box
with a single region label, `combine_bounding_boxes` with the (possibly nested)
pair of the two source tags. -/
inductive RegionTag where
  | single : Int → RegionTag
  | pair : RegionTag → RegionTag → RegionTag
  deriving DecidableEq, Repr

/-- `bounding_box(region, row_start, col_start, height, width)` from the source
(the derived `x0`/`y0` aliases duplicate `col_start`/`row_start` and are omitted). -/
structure BoundingBox where
  region : RegionTag
  row_start : Nat
  col_start : Nat
  height : Nat
  width : Nat
  deriving DecidableEq, Repr

/-- `bounding_box.__len__`: `height * width`. -/
def BoundingBox.len (b : BoundingBox) : Nat :=
  b.height * b.width

/-- `simularity_set.combine_bounding_boxes`, line for line.  Note the source's
line 152 computes `max_col_b = box_b.row_start + box_b.width` (with `row_start`,
not `col_start`), reproduced faithfully here. -/
def combine_bounding_boxes (box_a box_b : BoundingBox) : BoundingBox :=
  let row_start := min box_a.row_start box_b.row_start
  let col_start := min box_a.col_start box_b.col_start
  let max_row_a := box_a.row_start + box_a.height
  let max_col_a := box_a.col_start + box_a.width
  let max_row_b := box_b.row_start + box_b.height
  let max_col_b := box_b.row_start + box_b.width
  { region := .pair box_a.region box_b.region
    row_start := row_start
    col_start := col_start
    height := max max_row_a max_row_b - row_start
    width := max max_col_a max_col_b - col_start }

/-- Modelled from the spec: the `union(other)` box of §4.1, whose origin is the
component-wise minimum of the two origins and whose extent is the component-wise
maximum of `(origin + extent)` across both boxes, minus the new origin.  Used only
to compare the source's `combine_bounding_boxes` against the specified union. -/
def spec_union (box_a box_b : BoundingBox) : BoundingBox :=
  let row_start := min box_a.row_start box_b.row_start
  let col_start := min box_a.col_start box_b.col_start
  { region := .pair box_a.region box_b.region
    row_start := row_start
    col_start := col_start
    height := max (box_a.row_start + box_a.height) (box_b.row_start + box_b.height) - row_start
    width := max (box_a.col_start + box_a.width) (box_b.col_start + box_b.width) - col_start }

/-- The label image: a 2D array of region labels with fixed dimensions
(`region_image` in the source; `shape = (height, width)`). -/
structure LabelImage where
  height : Nat
  width : Nat
  lab : Nat → Nat → Int

/-- `simularity_set.image_size = height * width`. -/
def imageSize (img : LabelImage) : Nat :=
  img.height * img.width

/-- `get_indices_of_region`: the row-major list of coordinates `(row, col)` where
`region_image == region` (numpy `nonzero` enumerates in row-major order). -/
def get_indices_of_region (img : LabelImage) (region : Int) : List (Nat × Nat) :=
  (List.range img.height).flatMap fun r =>
    (List.range img.width).filterMap fun c =>
      if img.lab r c = region then some (r, c) else none

/-- `create_bounding_box`: min/max of row and col over the region's indices.
Python's `min` over an empty sequence raises `ValueError`, modelled as `none`. -/
def create_bounding_box (img : LabelImage) (region : Int) : Option BoundingBox :=
  match get_indices_of_region img region with
  | [] => none
  | p :: ps =>
    let row_start := ps.foldl (fun m q => min m q.1) p.1
    let col_start := ps.foldl (fun m q => min m q.2) p.2
    let row_max := ps.foldl (fun m q => max m q.1) p.1
    let col_max := ps.foldl (fun m q => max m q.2) p.2
    some { region := .single region
           row_start := row_start
           col_start := col_start
           height := row_max - row_start
           width := col_max - col_start }

/-- The mutable pair/region bookkeeping of `simularity_set`: the adjacency set
`sim_set` of ordered-as-stored label pairs and the live-region set `region_set`. -/
structure SimState where
  sim_set : Finset (Int × Int)
  region_set : Finset Int
  deriving DecidableEq

/-- `add_set(region_a, region_b)`: skip when equal; insert `(a, b)` unless the
reverse ordering is already present; add both labels to `region_set`. -/
def add_set (st : SimState) (region_a region_b : Int) : SimState :=
  if region_a ≠ region_b then
    { sim_set :=
        if (region_b, region_a) ∉ st.sim_set then insert (region_a, region_b) st.sim_set
        else st.sim_set
      region_set := insert region_b (insert region_a st.region_set) }
  else st

/-- One iteration of the construction scan at pixel `(row, col)`: compare against
the right, down, down-right and up-right neighbors when in bounds. -/
def scan_pixel (img : LabelImage) (st : SimState) (row col : Nat) : SimState :=
  let current := img.lab row col
  let st1 := if col + 1 < img.width then add_set st current (img.lab row (col + 1)) else st
  let st2 := if row + 1 < img.height then add_set st1 current (img.lab (row + 1) col) else st1
  let st3 :=
    if col + 1 < img.width ∧ row + 1 < img.height then
      add_set st2 current (img.lab (row + 1) (col + 1))
    else st2
  if col + 1 < img.width ∧ 0 < row then add_set st3 current (img.lab (row - 1) (col + 1))
  else st3

/-- The adjacency-discovery double loop of `simularity_set.__init__`. -/
def build_sim (img : LabelImage) : SimState :=
  (List.range img.height).foldl
    (fun st row => (List.range img.width).foldl (fun st col => scan_pixel img st row col) st)
    ⟨∅, ∅⟩

/-- Python `set.remove`: erase the element, raising (`none`) when it is absent. -/
def set_remove (s : Finset Int) (x : Int) : Option (Finset Int) :=
  if x ∈ s then some (s.erase x) else none

/-- Whether a stored pair `item` contains the label `x` (Python `x in item` on a
2-tuple). -/
def pair_contains (x : Int) (item : Int × Int) : Prop :=
  item.1 = x ∨ item.2 = x

instance (x : Int) (item : Int × Int) : Decidable (pair_contains x item) := by
  unfold pair_contains; infer_instance

/-- `remove_set(s)`: drop `s` and its reverse from `sim_set` when present, then
prune `s[0]` (and then `s[1]`) from `region_set` when no surviving pair contains
it.  The pruning uses Python `set.remove`, which raises `KeyError` (`none`) when
the label is not in `region_set`. -/
def remove_set (st : SimState) (s : Int × Int) : Option SimState :=
  let ss1 := if s ∈ st.sim_set then st.sim_set.erase s else st.sim_set
  let ss2 := if (s.2, s.1) ∈ ss1 then ss1.erase (s.2, s.1) else ss1
  match
    (if ss2.filter (pair_contains s.1) = ∅ then set_remove st.region_set s.1
     else some st.region_set) with
  | none => none
  | some rs1 =>
    match
      (if ss2.filter (pair_contains s.2) = ∅ then set_remove rs1 s.2 else some rs1) with
    | none => none
    | some rs2 => some ⟨ss2, rs2⟩

/-- The color image handed to `simularity_set.__init__` (`self.image`): an
`H×W×3` array; only its dimensions matter to the claims about construction. -/
structure ColorImage where
  height : Nat
  width : Nat
  pix : Nat → Nat → Int × Int × Int

/-- The external union-find collaborator: `find(label)` resolves to a
representative label that also carries a recorded `size` (pixel count); the
source reads `find(region_a).size` and passes the representative back into
label-image queries. -/
structure DisjointSet where
  find : Int → Int
  size : Int → Int

/-- The full `simularity_set` object state after `__init__`.  The `bounding_box`
dict is modelled as the mapping it holds after the construction loop: defined on
exactly the discovered regions. -/
structure SimilaritySet where
  region_image : LabelImage
  image : ColorImage
  disjoint_set : DisjointSet
  state : SimState
  bounding_box : Int → Option BoundingBox

/-- `simularity_set.__init__(region_image, image, disjoint_set)`: store the three
inputs, read `height`/`width` from `region_image.shape` alone (the color image's
dimensions are never examined), run the adjacency scan, then cache a bounding box
for every discovered region.  The cache loop raises iff `create_bounding_box`
raises on some discovered region; `none` models an exception escaping
`__init__`. -/
def simularity_set_init (region_image : LabelImage) (image : ColorImage)
    (disjoint_set : DisjointSet) : Option SimilaritySet :=
  let st := build_sim region_image
  if ∀ region ∈ st.region_set, (create_bounding_box region_image region).isSome then
    some { region_image := region_image
           image := image
           disjoint_set := disjoint_set
           state := st
           bounding_box := fun r =>
             if r ∈ st.region_set then create_bounding_box region_image r else none }
  else none

/-- `s_size(region_a, region_b) = 1 - ((a.size + b.size) / image_size)` where
`a`, `b` are the union-find representatives.  Python true division over `ℚ`. -/
def s_size (img : LabelImage) (ds : DisjointSet) (region_a region_b : Int) : ℚ :=
  let a := ds.find region_a
  let b := ds.find region_b
  1 - (((ds.size a + ds.size b : Int) : ℚ) / (imageSize img : ℚ))

/-- `s_fill(region_a, region_b)`: resolve both representatives, build both
bounding boxes (fallible), combine them with `combine_bounding_boxes`, and
return `1 - ((len(bbox_ab) - a.size - b.size) / image_size)`. -/
def s_fill (img : LabelImage) (ds : DisjointSet) (region_a region_b : Int) : Option ℚ :=
  let a := ds.find region_a
  let b := ds.find region_b
  match create_bounding_box img a, create_bounding_box img b with
  | some bbox_a, some bbox_b =>
    let bbox_ab := combine_bounding_boxes bbox_a bbox_b
    some (1 - ((((bbox_ab.len : Int) - ds.size a - ds.size b : Int) : ℚ) / (imageSize img : ℚ)))
  | _, _ => none

/-- Modelled from the spec: `similarity_by_fill` of §4.5 with the §4.1 union box
(`spec_union`) in place of the source's `combine_bounding_boxes`, everything else
identical.  Used only to compare the source metric against the specified one. -/
def s_fill_spec (img : LabelImage) (ds : DisjointSet) (region_a region_b : Int) : Option ℚ :=
  let a := ds.find region_a
  let b := ds.find region_b
  match create_bounding_box img a, create_bounding_box img b with
  | some bbox_a, some bbox_b =>
    let bbox_ab := spec_union bbox_a bbox_b
    some (1 - ((((bbox_ab.len : Int) - ds.size a - ds.size b : Int) : ℚ) / (imageSize img : ℚ)))
  | _, _ => none

/-- One call to the external `histogram_utils.get_normalized_histogram`, recorded
symbolically: the masked region and the `channels` / `bins` / `ranges` argument
lists that `calculate_color_hist_of_region` passes through. -/
structure HistCall where
  region : Int
  channels : List Nat
  bins : List Nat
  ranges : List Nat
  deriving DecidableEq, Repr

/-- `calculate_color_hist_of_region(region, bins, ranges)`: masks by `region` and
calls the histogram collaborator with `channels = [0, 1, 2]` and the given
`bins` / `ranges`.  The collaborator is external, so the call is recorded. -/
def calculate_color_hist_of_region (region : Int) (bins ranges : List Nat) : HistCall :=
  { region := region
    channels := [0, 1, 2]
    bins := bins
    ranges := ranges }

/-- `s_color(region_a, region_b, method_name)`: resolve both representatives and
compute both histograms with `bins = [0, 1, 2]` and
`ranges = [0, 256, 0, 256, 0, 256]`, then hand them to the external
`compare_histograms` under `method_name` (recorded symbolically). -/
def s_color (ds : DisjointSet) (region_a region_b : Int) (method_name : String) :
    HistCall × HistCall × String :=
  let a := ds.find region_a
  let b := ds.find region_b
  let bins : List Nat := [0, 1, 2]
  let ranges : List Nat := [0, 256, 0, 256, 0, 256]
  (calculate_color_hist_of_region a bins ranges,
   calculate_color_hist_of_region b bins ranges,
   method_name)

/-- The 3×3 label image `[[1, 2, 3], [4, 5, 6], [4, 4, 6]]` from the source's
smoke test. -/
def img3 : LabelImage :=
  { height := 3
    width := 3
    lab := fun r c =>
      if r = 0 then (if c = 0 then 1 else if c = 1 then 2 else 3)
      else if r = 1 then (if c = 0 then 4 else if c = 1 then 5 else 6)
      else (if c = 0 then 4 else if c = 1 then 4 else 6) }

/-- The 1×2 label image `[[1, 2]]`. -/
def img12 : LabelImage :=
  { height := 1
    width := 2
    lab := fun _ c => if c = 0 then 1 else 2 }

/-- The 2×3 label image `[[1, 1, 2], [1, 1, 2]]`. -/
def img223 : LabelImage :=
  { height := 2
    width := 3
    lab := fun _ c => if c ≤ 1 then 1 else 2 }

/-- A union-find state over `img223` where every label is its own representative
and the recorded sizes are the true pixel counts: region 1 has 4 pixels, region 2
has 2. -/
def ds223 : DisjointSet :=
  { find := fun x => x
    size := fun x => if x = 1 then 4 else if x = 2 then 2 else 0 }

/-- A union-find state with identity `find` and all recorded sizes zero. -/
def dsZero : DisjointSet :=
  { find := fun x => x
    size := fun _ => 0 }

/-- A 5×7 color image (dimensions deliberately unrelated to any label image). -/
def colorImg57 : ColorImage :=
  { height := 5
    width := 7
    pix := fun _ _ => (0, 0, 0) }

/-- Two pixel coordinates are 8-adjacent: distinct, and within one row and one
column of each other. -/
def EightAdj (p q : Nat × Nat) : Prop :=
  p ≠ q ∧ (p.1 = q.1 ∨ p.1 + 1 = q.1 ∨ q.1 + 1 = p.1) ∧
    (p.2 = q.2 ∨ p.2 + 1 = q.2 ∨ q.2 + 1 = p.2)

/-- A pixel coordinate lies inside the label image. -/
def InBounds (img : LabelImage) (p : Nat × Nat) : Prop :=
  p.1 < img.height ∧ p.2 < img.width

/-- Labels `a` and `b` occur at some 8-adjacent pair of in-bounds pixels of the
original label image. -/
def AdjLabels (img : LabelImage) (a b : Int) : Prop :=
  ∃ p q : Nat × Nat, InBounds img p ∧ InBounds img q ∧ EightAdj p q ∧
    img.lab p.1 p.2 = a ∧ img.lab q.1 q.2 = b

/-- The unordered pair `{a, b}` is recorded in the adjacency set (under either
stored orientation). -/
def memPair (S : Finset (Int × Int)) (a b : Int) : Prop :=
  (a, b) ∈ S ∨ (b, a) ∈ S

/-- The invariant carried through the construction scan: every stored pair has
distinct labels witnessed by 8-adjacent pixels, at most one orientation of each
pair is stored, and every live region label occurs at some in-bounds pixel. -/
def ScanInv (img : LabelImage) (st : SimState) : Prop :=
  (∀ p : Int × Int, p ∈ st.sim_set → p.1 ≠ p.2 ∧ AdjLabels img p.1 p.2) ∧
  (∀ a b : Int, (a, b) ∈ st.sim_set → (b, a) ∈ st.sim_set → a = b) ∧
  (∀ x : Int, x ∈ st.region_set → ∃ p : Nat × Nat, InBounds img p ∧ img.lab p.1 p.2 = x)

/-- The set of labels that occur in at least one stored pair. -/
def regions_of_pairs (S : Finset (Int × Int)) : Finset Int :=
  S.image Prod.fst ∪ S.image Prod.snd

/-- The liveness invariant: the live-region set is exactly the set of labels
occurring in some stored pair. -/
def LiveInv (st : SimState) : Prop :=
  st.region_set = regions_of_pairs st.sim_set

/-- The states reachable from construction on `img` by `add_set` calls and
successful `remove_set` calls. -/
inductive Reachable (img : LabelImage) : SimState → Prop where
  | base : Reachable img (build_sim img)
  | add (st : SimState) (a b : Int) : Reachable img st → Reachable img (add_set st a b)
  | remove (st st' : SimState) (s : Int × Int) : Reachable img st →
      remove_set st s = some st' → Reachable img st'

/-- C1: the source's `combine_bounding_boxes` computes the combined column extent
from `box_b.row_start + box_b.width` instead of `box_b.col_start + box_b.width`,
so at `box_a = (0,0,1,1)`, `box_b = (0,5,1,1)` the combined box has width 1 and
ends at column 1, failing to contain `box_b` (columns up to 6); the §4.1 union
(`spec_union`) of the same boxes has width 6 as the claim requires. -/
theorem c1_combine_box_drops_b_columns :
    combine_bounding_boxes ⟨.single 1, 0, 0, 1, 1⟩ ⟨.single 2, 0, 5, 1, 1⟩ =
      ⟨.pair (.single 1) (.single 2), 0, 0, 1, 1⟩ ∧
    spec_union ⟨.single 1, 0, 0, 1, 1⟩ ⟨.single 2, 0, 5, 1, 1⟩ =
      ⟨.pair (.single 1) (.single 2), 0, 0, 1, 6⟩ ∧
    (combine_bounding_boxes ⟨.single 1, 0, 0, 1, 1⟩ ⟨.single 2, 0, 5, 1, 1⟩).col_start +
        (combine_bounding_boxes ⟨.single 1, 0, 0, 1, 1⟩ ⟨.single 2, 0, 5, 1, 1⟩).width <
      5 + 1 := by
  decide

/-- C2: `remove_set` is not idempotent.  On the 1×2 image `[[1, 2]]` the first
`remove_set((1, 2))` empties both sets, and the second identical call hits the
unguarded `self.region_set.remove(s[0])` with label 1 no longer present, which
raises `KeyError` (modelled as `none`) instead of being a no-op. -/
theorem c2_remove_set_second_call_raises :
    remove_set (build_sim img12) (1, 2) = some ⟨∅, ∅⟩ ∧
    (remove_set (build_sim img12) (1, 2)).bind (fun st => remove_set st (1, 2)) = none := by
  decide

/-- C3 counterexample: on `[[1, 2, 3], [4, 5, 6], [4, 4, 6]]` the construction
scan records 12 unordered adjacency pairs, not the 9 the claim states. -/
theorem c3_nine_pairs_refuted :
    (build_sim img3).sim_set.card = 12 ∧ ¬(build_sim img3).sim_set.card = 9 := by
  decide

/-- C3 amended: on `[[1, 2, 3], [4, 5, 6], [4, 4, 6]]` construction discovers 12
unordered pairs over the 6 live labels `{1, ..., 6}`; after `remove_set` on
`(1, 2)`, `(1, 4)` and `(1, 5)` (all succeeding), label 1 is no longer live, the
region count is 5, and the adjacency set holds 9 pairs. -/
theorem c3_scenario_counts :
    (build_sim img3).sim_set.card = 12 ∧
    (build_sim img3).region_set = ({1, 2, 3, 4, 5, 6} : Finset Int) ∧
    (((remove_set (build_sim img3) (1, 2)).bind fun st => remove_set st (1, 4)).bind fun st =>
          remove_set st (1, 5)).map
        (fun st => (decide (1 ∈ st.region_set), st.region_set.card, st.sim_set.card)) =
      some (false, 5, 9) := by
  decide

/-- C8: `s_fill` inherits the `combine_bounding_boxes` column bug.  On
`[[1, 1, 2], [1, 1, 2]]` with true sizes (4 and 2), the source computes
`s_fill(1, 2) = 11/6`, while the claimed formula over the §4.1 union box gives
`5/3`; the two disagree. -/
theorem c8_fill_formula_diverges :
    s_fill img223 ds223 1 2 = some (11 / 6 : ℚ) ∧
    s_fill_spec img223 ds223 1 2 = some (5 / 3 : ℚ) ∧
    (11 / 6 : ℚ) ≠ 5 / 3 := by
  have h1 : create_bounding_box img223 (ds223.find 1) =
      some ⟨.single 1, 0, 0, 1, 1⟩ := by decide
  have h2 : create_bounding_box img223 (ds223.find 2) =
      some ⟨.single 2, 0, 2, 1, 0⟩ := by decide
  have h3 : (combine_bounding_boxes ⟨.single 1, 0, 0, 1, 1⟩ ⟨.single 2, 0, 2, 1, 0⟩).len = 1 := by
    decide
  have h4 : (spec_union ⟨.single 1, 0, 0, 1, 1⟩ ⟨.single 2, 0, 2, 1, 0⟩).len = 2 := by
    decide
  have ha : ds223.size (ds223.find 1) = 4 := by decide
  have hb : ds223.size (ds223.find 2) = 2 := by decide
  have hsz : imageSize img223 = 6 := by decide
  refine ⟨?_, ?_, by norm_num⟩
  · simp only [s_fill, h1, h2, h3, ha, hb, hsz]
    norm_num
  · simp only [s_fill_spec, h1, h2, h4, ha, hb, hsz]
    norm_num

/-- C10: for every union-find state, pair of labels and method name, `s_color`
issues both histogram calls with `channels = [0, 1, 2]`, the list `[0, 1, 2]` as
the bin specification, and ranges `[0, 256]` per channel; in particular no
25-bins-per-channel configuration is ever passed. -/
theorem c10_s_color_fixed_histogram_params (ds : DisjointSet) (a b : Int) (method : String) :
    (s_color ds a b method).1.channels = [0, 1, 2] ∧
    (s_color ds a b method).1.bins = [0, 1, 2] ∧
    (s_color ds a b method).1.ranges = [0, 256, 0, 256, 0, 256] ∧
    (s_color ds a b method).2.1.channels = [0, 1, 2] ∧
    (s_color ds a b method).2.1.bins = [0, 1, 2] ∧
    (s_color ds a b method).2.1.ranges = [0, 256, 0, 256, 0, 256] ∧
    (s_color ds a b method).1.bins ≠ [25, 25, 25] ∧
    (s_color ds a b method).2.2 = method := by
  refine ⟨rfl, rfl, rfl, rfl, rfl, rfl, ?_, rfl⟩
  show ([0, 1, 2] : List Nat) ≠ [25, 25, 25]
  decide

/-- C9: `s_size(a, b)` equals `1 - (size(find(a)) + size(find(b))) / image_size`;
given a nonempty image and non-negative recorded sizes it is at most 1, equals 1
exactly when both resolved sizes are 0, and is strictly decreasing in the sum of
the two resolved sizes. -/
theorem c9_s_size_formula_and_bounds (img : LabelImage) (ds : DisjointSet) (a b : Int)
    (hN : 0 < imageSize img) (ha : 0 ≤ ds.size (ds.find a)) (hb : 0 ≤ ds.size (ds.find b)) :
    s_size img ds a b =
      1 - ((ds.size (ds.find a) + ds.size (ds.find b) : Int) : ℚ) / (imageSize img : ℚ) ∧
    s_size img ds a b ≤ 1 ∧
    (s_size img ds a b = 1 ↔ ds.size (ds.find a) = 0 ∧ ds.size (ds.find b) = 0) ∧
    ∀ a' b' : Int,
      ds.size (ds.find a) + ds.size (ds.find b) < ds.size (ds.find a') + ds.size (ds.find b') →
        s_size img ds a' b' < s_size img ds a b := by
  have hNq : (0 : ℚ) < (imageSize img : ℚ) := by exact_mod_cast hN
  have hs : (0 : ℚ) ≤ ((ds.size (ds.find a) + ds.size (ds.find b) : Int) : ℚ) := by
    exact_mod_cast add_nonneg ha hb
  refine ⟨rfl, ?_, ?_, ?_⟩
  · simp only [s_size]
    have := div_nonneg hs hNq.le
    linarith
  · simp only [s_size]
    constructor
    · intro h
      have h0 : ((ds.size (ds.find a) + ds.size (ds.find b) : Int) : ℚ) /
          (imageSize img : ℚ) = 0 := by linarith
      have h1 : ((ds.size (ds.find a) + ds.size (ds.find b) : Int) : ℚ) = 0 := by
        rcases div_eq_zero_iff.mp h0 with h' | h'
        · exact h'
        · exact absurd h' (ne_of_gt hNq)
      have h2 : ds.size (ds.find a) + ds.size (ds.find b) = 0 := by exact_mod_cast h1
      omega
    · rintro ⟨h1, h2⟩
      rw [h1, h2]
      norm_num
  · intro a' b' hlt
    simp only [s_size]
    have hq : ((ds.size (ds.find a) + ds.size (ds.find b) : Int) : ℚ) <
        ((ds.size (ds.find a') + ds.size (ds.find b') : Int) : ℚ) := by exact_mod_cast hlt
    have hdiv : ((ds.size (ds.find a) + ds.size (ds.find b) : Int) : ℚ) /
        (imageSize img : ℚ) <
        ((ds.size (ds.find a') + ds.size (ds.find b') : Int) : ℚ) / (imageSize img : ℚ) :=
      div_lt_div_of_pos_right hq hNq
    linarith

/-- C9 witness: the bound instantiated on the 1×2 image with zero recorded sizes. -/
theorem c9_s_size_formula_and_bounds_witness :
    s_size img12 dsZero 1 2 ≤ 1 :=
  (c9_s_size_formula_and_bounds img12 dsZero 1 2 (by decide) (by decide) (by decide)).2.1

theorem EightAdj_symm {p q : Nat × Nat} (h : EightAdj p q) : EightAdj q p := by
  obtain ⟨hne, hr, hc⟩ := h
  exact ⟨fun e => hne e.symm, by tauto, by tauto⟩

theorem AdjLabels_symm {img : LabelImage} {a b : Int} (h : AdjLabels img a b) :
    AdjLabels img b a := by
  obtain ⟨p, q, hp, hq, hadj, ha, hb⟩ := h
  exact ⟨q, p, hq, hp, EightAdj_symm hadj, hb, ha⟩

theorem memPair_symm {S : Finset (Int × Int)} {a b : Int} (h : memPair S a b) :
    memPair S b a :=
  h.symm

theorem memPair_mono {S T : Finset (Int × Int)} {a b : Int} (hsub : S ⊆ T)
    (h : memPair S a b) : memPair T a b :=
  h.imp (fun h' => hsub h') (fun h' => hsub h')

theorem add_set_sim_subset (st : SimState) (a b : Int) :
    st.sim_set ⊆ (add_set st a b).sim_set := by
  unfold add_set
  split_ifs <;> simp [Finset.subset_insert, Finset.Subset.refl]

theorem add_set_memPair (st : SimState) {a b : Int} (hab : a ≠ b) :
    memPair (add_set st a b).sim_set a b := by
  unfold add_set
  rw [if_pos hab]
  by_cases h : (b, a) ∈ st.sim_set
  · right
    simp [h]
  · left
    simp [h]

theorem add_set_sim_mem {st : SimState} {a b : Int} {p : Int × Int}
    (h : p ∈ (add_set st a b).sim_set) :
    p ∈ st.sim_set ∨ (p = (a, b) ∧ a ≠ b) := by
  unfold add_set at h
  split_ifs at h with hab hmem
  all_goals try exact Or.inl h
  rcases Finset.mem_insert.mp h with h' | h'
  · exact Or.inr ⟨h', hab⟩
  · exact Or.inl h'

theorem cond_add_subset (st : SimState) (cond : Prop) [Decidable cond] (a b : Int) :
    st.sim_set ⊆ (if cond then add_set st a b else st).sim_set := by
  split_ifs
  · exact add_set_sim_subset st a b
  · exact Finset.Subset.refl _

theorem scan_pixel_sim_subset (img : LabelImage) (st : SimState) (r c : Nat) :
    st.sim_set ⊆ (scan_pixel img st r c).sim_set := by
  dsimp only [scan_pixel]
  exact Finset.Subset.trans (cond_add_subset _ _ _ _)
    (Finset.Subset.trans (cond_add_subset _ _ _ _)
      (Finset.Subset.trans (cond_add_subset _ _ _ _) (cond_add_subset _ _ _ _)))

theorem add_set_of_eq (st : SimState) {a b : Int} (h : a = b) : add_set st a b = st := by
  simp [add_set, h]

theorem add_set_of_ne_mem (st : SimState) {a b : Int} (h : a ≠ b)
    (hm : (b, a) ∈ st.sim_set) :
    add_set st a b = ⟨st.sim_set, insert b (insert a st.region_set)⟩ := by
  simp [add_set, h, hm]

theorem add_set_of_ne_not_mem (st : SimState) {a b : Int} (h : a ≠ b)
    (hm : (b, a) ∉ st.sim_set) :
    add_set st a b = ⟨insert (a, b) st.sim_set, insert b (insert a st.region_set)⟩ := by
  simp [add_set, h, hm]

theorem foldl_pres {α β : Type} (P : β → Prop) {f : β → α → β} :
    ∀ {l : List α}, (∀ st x, x ∈ l → P st → P (f st x)) → ∀ {st : β}, P st → P (l.foldl f st)
  | [], _, _, hst => hst
  | x :: xs, h, st, hst =>
    foldl_pres P (fun st' y hy => h st' y (List.mem_cons_of_mem x hy))
      (h st x (List.mem_cons_self x xs) hst)

theorem foldl_est {α β : Type} (P : β → Prop) {f : β → α → β} {x : α} :
    ∀ {l : List α}, (∀ st y, y ∈ l → P st → P (f st y)) → x ∈ l → (∀ st, P (f st x)) →
      ∀ st : β, P (l.foldl f st)
  | [], _, hx, _, _ => absurd hx (List.not_mem_nil x)
  | y :: ys, hpres, hx, hest, st => by
    rcases List.mem_cons.mp hx with rfl | hx'
    · exact foldl_pres P (fun st' z hz => hpres st' z (List.mem_cons_of_mem x hz)) (hest st)
    · exact foldl_est P (fun st' z hz => hpres st' z (List.mem_cons_of_mem y hz)) hx' hest
        (f st y)

theorem ScanInv_add_set {img : LabelImage} {st : SimState} {a b : Int}
    (hinv : ScanInv img st) (hadj : a ≠ b → AdjLabels img a b)
    (hpa : ∃ p : Nat × Nat, InBounds img p ∧ img.lab p.1 p.2 = a)
    (hpb : ∃ p : Nat × Nat, InBounds img p ∧ img.lab p.1 p.2 = b) :
    ScanInv img (add_set st a b) := by
  obtain ⟨hsound, hdedup, hreg⟩ := hinv
  by_cases hab : a = b
  · rw [add_set_of_eq st hab]
    exact ⟨hsound, hdedup, hreg⟩
  · have hreg' : ∀ x : Int, x ∈ insert b (insert a st.region_set) →
        ∃ p : Nat × Nat, InBounds img p ∧ img.lab p.1 p.2 = x := by
      intro x hx
      rcases Finset.mem_insert.mp hx with rfl | hx'
      · exact hpb
      · rcases Finset.mem_insert.mp hx' with rfl | hx''
        · exact hpa
        · exact hreg x hx''
    by_cases hm : (b, a) ∈ st.sim_set
    · rw [add_set_of_ne_mem st hab hm]
      exact ⟨hsound, hdedup, hreg'⟩
    · rw [add_set_of_ne_not_mem st hab hm]
      refine ⟨?_, ?_, hreg'⟩
      · intro p hp
        rcases Finset.mem_insert.mp hp with rfl | hp'
        · exact ⟨hab, hadj hab⟩
        · exact hsound p hp'
      · intro x y hxy hyx
        rcases Finset.mem_insert.mp hxy with h1 | h1 <;>
          rcases Finset.mem_insert.mp hyx with h2 | h2
        · have hx : x = a := congrArg Prod.fst h1
          have hy : y = a := congrArg Prod.fst h2
          rw [hx, hy]
        · obtain ⟨rfl, rfl⟩ := Prod.mk.inj h1
          exact absurd h2 hm
        · obtain ⟨rfl, rfl⟩ := Prod.mk.inj h2
          exact absurd h1 hm
        · exact hdedup x y h1 h2

theorem eightAdj_right (r c : Nat) : EightAdj (r, c) (r, c + 1) := by
  refine ⟨?_, Or.inl rfl, Or.inr (Or.inl rfl)⟩
  intro h
  have h2 : c = c + 1 := congrArg Prod.snd h
  omega

theorem eightAdj_down (r c : Nat) : EightAdj (r, c) (r + 1, c) := by
  refine ⟨?_, Or.inr (Or.inl rfl), Or.inl rfl⟩
  intro h
  have h2 : r = r + 1 := congrArg Prod.fst h
  omega

theorem eightAdj_downright (r c : Nat) : EightAdj (r, c) (r + 1, c + 1) := by
  refine ⟨?_, Or.inr (Or.inl rfl), Or.inr (Or.inl rfl)⟩
  intro h
  have h2 : r = r + 1 := congrArg Prod.fst h
  omega

theorem eightAdj_upright (r c : Nat) (hr : 0 < r) : EightAdj (r, c) (r - 1, c + 1) := by
  refine ⟨?_, Or.inr (Or.inr (by omega)), Or.inr (Or.inl rfl)⟩
  intro h
  have h2 : c = c + 1 := congrArg Prod.snd h
  omega

theorem ScanInv_cond_add {img : LabelImage} {st : SimState} {a b : Int}
    (cond : Prop) [Decidable cond] (hinv : ScanInv img st)
    (h : cond →
      (a ≠ b → AdjLabels img a b) ∧
        (∃ p : Nat × Nat, InBounds img p ∧ img.lab p.1 p.2 = a) ∧
        (∃ p : Nat × Nat, InBounds img p ∧ img.lab p.1 p.2 = b)) :
    ScanInv img (if cond then add_set st a b else st) := by
  split_ifs with hc
  · exact ScanInv_add_set hinv (h hc).1 (h hc).2.1 (h hc).2.2
  · exact hinv

theorem ScanInv_scan_pixel {img : LabelImage} {st : SimState} {r c : Nat}
    (hr : r < img.height) (hc : c < img.width) (hinv : ScanInv img st) :
    ScanInv img (scan_pixel img st r c) := by
  have hp : InBounds img (r, c) := ⟨hr, hc⟩
  dsimp only [scan_pixel]
  refine ScanInv_cond_add _ (ScanInv_cond_add _ (ScanInv_cond_add _ (ScanInv_cond_add _ hinv
    ?_) ?_) ?_) ?_
  · intro hcw
    exact ⟨fun _ => ⟨(r, c), (r, c + 1), hp, ⟨hr, hcw⟩, eightAdj_right r c, rfl, rfl⟩,
      ⟨(r, c), hp, rfl⟩, ⟨(r, c + 1), ⟨hr, hcw⟩, rfl⟩⟩
  · intro hrh
    exact ⟨fun _ => ⟨(r, c), (r + 1, c), hp, ⟨hrh, hc⟩, eightAdj_down r c, rfl, rfl⟩,
      ⟨(r, c), hp, rfl⟩, ⟨(r + 1, c), ⟨hrh, hc⟩, rfl⟩⟩
  · rintro ⟨hcw, hrh⟩
    exact ⟨fun _ => ⟨(r, c), (r + 1, c + 1), hp, ⟨hrh, hcw⟩, eightAdj_downright r c, rfl, rfl⟩,
      ⟨(r, c), hp, rfl⟩, ⟨(r + 1, c + 1), ⟨hrh, hcw⟩, rfl⟩⟩
  · rintro ⟨hcw, hr0⟩
    exact ⟨fun _ => ⟨(r, c), (r - 1, c + 1), hp, ⟨by omega, hcw⟩, eightAdj_upright r c hr0,
        rfl, rfl⟩,
      ⟨(r, c), hp, rfl⟩, ⟨(r - 1, c + 1), ⟨by omega, hcw⟩, rfl⟩⟩

theorem build_sim_inv (img : LabelImage) : ScanInv img (build_sim img) := by
  unfold build_sim
  apply foldl_pres (ScanInv img)
  · intro st r hrmem hst
    apply foldl_pres (ScanInv img)
    · intro st' c hcmem hst'
      exact ScanInv_scan_pixel (List.mem_range.mp hrmem) (List.mem_range.mp hcmem) hst'
    · exact hst
  · refine ⟨?_, ?_, ?_⟩
    · intro p hp
      exact absurd hp (Finset.not_mem_empty p)
    · intro a b hab _
      exact absurd hab (Finset.not_mem_empty (a, b))
    · intro x hx
      exact absurd hx (Finset.not_mem_empty x)

theorem memPair_cond_add_pres {st : SimState} {a b x y : Int} {cond : Prop} [Decidable cond]
    (h : memPair st.sim_set a b) :
    memPair (if cond then add_set st x y else st).sim_set a b :=
  memPair_mono (cond_add_subset st cond x y) h

theorem memPair_cond_add_est {st : SimState} {a b : Int} {cond : Prop} [Decidable cond]
    (hc : cond) (hab : a ≠ b) :
    memPair (if cond then add_set st a b else st).sim_set a b := by
  rw [if_pos hc]
  exact add_set_memPair st hab

theorem scan_pixel_memPair_right {img : LabelImage} {r c : Nat} (hcw : c + 1 < img.width)
    (hne : img.lab r c ≠ img.lab r (c + 1)) (st : SimState) :
    memPair (scan_pixel img st r c).sim_set (img.lab r c) (img.lab r (c + 1)) := by
  dsimp only [scan_pixel]
  exact memPair_cond_add_pres (memPair_cond_add_pres (memPair_cond_add_pres
    (memPair_cond_add_est hcw hne)))

theorem scan_pixel_memPair_down {img : LabelImage} {r c : Nat} (hrh : r + 1 < img.height)
    (hne : img.lab r c ≠ img.lab (r + 1) c) (st : SimState) :
    memPair (scan_pixel img st r c).sim_set (img.lab r c) (img.lab (r + 1) c) := by
  dsimp only [scan_pixel]
  exact memPair_cond_add_pres (memPair_cond_add_pres (memPair_cond_add_est hrh hne))

theorem scan_pixel_memPair_downright {img : LabelImage} {r c : Nat} (hcw : c + 1 < img.width)
    (hrh : r + 1 < img.height) (hne : img.lab r c ≠ img.lab (r + 1) (c + 1)) (st : SimState) :
    memPair (scan_pixel img st r c).sim_set (img.lab r c) (img.lab (r + 1) (c + 1)) := by
  dsimp only [scan_pixel]
  exact memPair_cond_add_pres (memPair_cond_add_est ⟨hcw, hrh⟩ hne)

theorem scan_pixel_memPair_upright {img : LabelImage} {r c : Nat} (hcw : c + 1 < img.width)
    (hr0 : 0 < r) (hne : img.lab r c ≠ img.lab (r - 1) (c + 1)) (st : SimState) :
    memPair (scan_pixel img st r c).sim_set (img.lab r c) (img.lab (r - 1) (c + 1)) := by
  dsimp only [scan_pixel]
  exact memPair_cond_add_est ⟨hcw, hr0⟩ hne

theorem build_sim_est {img : LabelImage} {a b : Int} {r c : Nat}
    (hr : r < img.height) (hc : c < img.width)
    (hest : ∀ st : SimState, memPair (scan_pixel img st r c).sim_set a b) :
    memPair (build_sim img).sim_set a b := by
  unfold build_sim
  have hscanpres : ∀ (st : SimState) (r' c' : Nat), memPair st.sim_set a b →
      memPair (scan_pixel img st r' c').sim_set a b :=
    fun st r' c' h => memPair_mono (scan_pixel_sim_subset img st r' c') h
  refine foldl_est (fun st : SimState => memPair st.sim_set a b) ?_ (List.mem_range.mpr hr) ?_ _
  · intro st y _ h
    exact foldl_pres (fun st : SimState => memPair st.sim_set a b)
      (fun st' z _ h' => hscanpres st' y z h') h
  · intro st
    exact foldl_est (fun st : SimState => memPair st.sim_set a b)
      (fun st' z _ h' => hscanpres st' r z h') (List.mem_range.mpr hc) hest st

theorem build_sim_complete {img : LabelImage} {p q : Nat × Nat}
    (hp : InBounds img p) (hq : InBounds img q) (hadj : EightAdj p q)
    (hne : img.lab p.1 p.2 ≠ img.lab q.1 q.2) :
    memPair (build_sim img).sim_set (img.lab p.1 p.2) (img.lab q.1 q.2) := by
  obtain ⟨pr, pc⟩ := p
  obtain ⟨qr, qc⟩ := q
  obtain ⟨hpq, hrows, hcols⟩ := hadj
  obtain ⟨hpr, hpc⟩ := hp
  obtain ⟨hqr, hqc⟩ := hq
  dsimp only at hpq hrows hcols hpr hpc hqr hqc ⊢
  rcases hrows with hR | hR | hR <;> rcases hcols with hC | hC | hC
  · subst hR; subst hC
    exact absurd rfl hpq
  · subst hR; subst hC
    exact build_sim_est hpr hpc (scan_pixel_memPair_right hqc hne)
  · subst hR; subst hC
    exact memPair_symm (build_sim_est hqr hqc (scan_pixel_memPair_right hpc hne.symm))
  · subst hR; subst hC
    exact build_sim_est hpr hpc (scan_pixel_memPair_down hqr hne)
  · subst hR; subst hC
    exact build_sim_est hpr hpc (scan_pixel_memPair_downright hqc hqr hne)
  · subst hR; subst hC
    exact memPair_symm (build_sim_est hqr hqc (scan_pixel_memPair_upright hpc (by omega)
      hne.symm))
  · subst hR; subst hC
    exact memPair_symm (build_sim_est hqr hqc (scan_pixel_memPair_down hpr hne.symm))
  · subst hR; subst hC
    exact build_sim_est hpr hpc (scan_pixel_memPair_upright hqc (by omega) hne)
  · subst hR; subst hC
    exact memPair_symm (build_sim_est hqr hqc (scan_pixel_memPair_downright hpc hpr
      hne.symm))

/-- C4: adjacency discovery is sound and complete for 8-connectivity: for
distinct labels `a`, `b`, the unordered pair is recorded (under one of its two
orientations) iff some pixel labeled `a` is 8-adjacent to some pixel labeled `b`
in the original label image, and never under both orientations at once. -/
theorem c4_adjacency_sound_complete (img : LabelImage) (a b : Int) (hab : a ≠ b) :
    (memPair (build_sim img).sim_set a b ↔ AdjLabels img a b) ∧
    ¬((a, b) ∈ (build_sim img).sim_set ∧ (b, a) ∈ (build_sim img).sim_set) := by
  constructor
  · constructor
    · rintro (h | h)
      · exact ((build_sim_inv img).1 (a, b) h).2
      · exact AdjLabels_symm ((build_sim_inv img).1 (b, a) h).2
    · rintro ⟨p, q, hp, hq, hadj, ha, hb⟩
      have h := build_sim_complete hp hq hadj (by rw [ha, hb]; exact hab)
      rwa [ha, hb] at h
  · rintro ⟨h1, h2⟩
    exact hab ((build_sim_inv img).2.1 a b h1 h2)

/-- C4 witness: the characterization instantiated at the 1×2 image `[[1, 2]]`
and the label pair `(1, 2)`. -/
theorem c4_adjacency_sound_complete_witness :
    (1 : Int) ≠ 2 ∧
    ((memPair (build_sim img12).sim_set 1 2 ↔ AdjLabels img12 1 2) ∧
      ¬(((1 : Int), (2 : Int)) ∈ (build_sim img12).sim_set ∧
        ((2 : Int), (1 : Int)) ∈ (build_sim img12).sim_set)) :=
  ⟨by decide, c4_adjacency_sound_complete img12 1 2 (by decide)⟩

theorem cond_erase {α : Type} [DecidableEq α] (S : Finset α) (x : α) :
    (if x ∈ S then S.erase x else S) = S.erase x := by
  split_ifs with h
  · rfl
  · exact (Finset.erase_eq_of_not_mem h).symm

theorem remove_set_cases {st : SimState} {s : Int × Int} {st' : SimState}
    (h : remove_set st s = some st') :
    st'.sim_set = (st.sim_set.erase s).erase (s.2, s.1) ∧
    ((st'.sim_set.filter (pair_contains s.1) = ∅ ∧
        st'.sim_set.filter (pair_contains s.2) = ∅ ∧
        st'.region_set = (st.region_set.erase s.1).erase s.2) ∨
      (st'.sim_set.filter (pair_contains s.1) = ∅ ∧
        st'.sim_set.filter (pair_contains s.2) ≠ ∅ ∧
        st'.region_set = st.region_set.erase s.1) ∨
      (st'.sim_set.filter (pair_contains s.1) ≠ ∅ ∧
        st'.sim_set.filter (pair_contains s.2) = ∅ ∧
        st'.region_set = st.region_set.erase s.2) ∨
      (st'.sim_set.filter (pair_contains s.1) ≠ ∅ ∧
        st'.sim_set.filter (pair_contains s.2) ≠ ∅ ∧
        st'.region_set = st.region_set)) := by
  obtain ⟨S0, R0⟩ := st'
  unfold remove_set set_remove at h
  simp only [cond_erase] at h
  by_cases h1 : ((st.sim_set.erase s).erase (s.2, s.1)).filter (pair_contains s.1) = ∅ <;>
    by_cases h2 : ((st.sim_set.erase s).erase (s.2, s.1)).filter (pair_contains s.2) = ∅
  · by_cases hm1 : s.1 ∈ st.region_set
    · by_cases hm2 : s.2 ∈ st.region_set.erase s.1
      · simp only [h1, h2, hm1, hm2, if_true, if_pos] at h
        obtain ⟨hs, hr⟩ := SimState.mk.injEq .. ▸ Option.some.inj h
        exact ⟨hs.symm, Or.inl ⟨hs ▸ h1, hs ▸ h2, hr.symm⟩⟩
      · simp [h1, h2, hm1, hm2] at h
    · simp [h1, h2, hm1] at h
  · by_cases hm1 : s.1 ∈ st.region_set
    · simp only [h1, h2, hm1, if_true, if_pos, if_neg, not_false_iff] at h
      obtain ⟨hs, hr⟩ := SimState.mk.injEq .. ▸ Option.some.inj h
      exact ⟨hs.symm, Or.inr (Or.inl ⟨hs ▸ h1, hs ▸ h2, hr.symm⟩)⟩
    · simp [h1, hm1] at h
  · by_cases hm2 : s.2 ∈ st.region_set
    · simp only [h1, h2, hm2, if_true, if_pos, if_neg, not_false_iff] at h
      obtain ⟨hs, hr⟩ := SimState.mk.injEq .. ▸ Option.some.inj h
      exact ⟨hs.symm, Or.inr (Or.inr (Or.inl ⟨hs ▸ h1, hs ▸ h2, hr.symm⟩))⟩
    · simp [h1, h2, hm2] at h
  · simp only [h1, h2, if_neg, not_false_iff] at h
    obtain ⟨hs, hr⟩ := SimState.mk.injEq .. ▸ Option.some.inj h
    exact ⟨hs.symm, Or.inr (Or.inr (Or.inr ⟨hs ▸ h1, hs ▸ h2, hr.symm⟩))⟩

theorem mem_regions_of_pairs {S : Finset (Int × Int)} {x : Int} :
    x ∈ regions_of_pairs S ↔ ∃ p ∈ S, pair_contains x p := by
  simp only [regions_of_pairs, Finset.mem_union, Finset.mem_image, pair_contains]
  constructor
  · rintro (⟨p, hp, e⟩ | ⟨p, hp, e⟩)
    · exact ⟨p, hp, Or.inl e⟩
    · exact ⟨p, hp, Or.inr e⟩
  · rintro ⟨p, hp, e | e⟩
    · exact Or.inl ⟨p, hp, e⟩
    · exact Or.inr ⟨p, hp, e⟩

theorem rop_mono {S T : Finset (Int × Int)} (h : S ⊆ T) :
    regions_of_pairs S ⊆ regions_of_pairs T := by
  intro x hx
  obtain ⟨p, hp, hc⟩ := mem_regions_of_pairs.mp hx
  exact mem_regions_of_pairs.mpr ⟨p, h hp, hc⟩

theorem filter_contains_empty_iff {S : Finset (Int × Int)} {y : Int} :
    S.filter (pair_contains y) = ∅ ↔ y ∉ regions_of_pairs S := by
  rw [Finset.filter_eq_empty_iff]
  constructor
  · intro h hmem
    obtain ⟨p, hp, hc⟩ := mem_regions_of_pairs.mp hmem
    exact h hp hc
  · intro h p hp hc
    exact h (mem_regions_of_pairs.mpr ⟨p, hp, hc⟩)

theorem rop_erase_iff {S : Finset (Int × Int)} {s : Int × Int} {x : Int}
    (hx1 : x ≠ s.1) (hx2 : x ≠ s.2) :
    x ∈ regions_of_pairs ((S.erase s).erase (s.2, s.1)) ↔ x ∈ regions_of_pairs S := by
  constructor
  · intro h
    exact rop_mono (Finset.Subset.trans (Finset.erase_subset _ _) (Finset.erase_subset _ _)) h
  · intro h
    obtain ⟨p, hp, hc⟩ := mem_regions_of_pairs.mp h
    refine mem_regions_of_pairs.mpr ⟨p, ?_, hc⟩
    refine Finset.mem_erase.mpr ⟨?_, Finset.mem_erase.mpr ⟨?_, hp⟩⟩
    · intro e
      rw [e] at hc
      rcases hc with e' | e'
      · exact hx2 e'.symm
      · exact hx1 e'.symm
    · intro e
      rw [e] at hc
      rcases hc with e' | e'
      · exact hx1 e'.symm
      · exact hx2 e'.symm

theorem LiveInv_add_set {st : SimState} {a b : Int} (h : LiveInv st) :
    LiveInv (add_set st a b) := by
  by_cases hab : a = b
  · rw [add_set_of_eq st hab]
    exact h
  · by_cases hm : (b, a) ∈ st.sim_set
    · rw [add_set_of_ne_mem st hab hm]
      unfold LiveInv at h ⊢
      dsimp only
      have hb : b ∈ regions_of_pairs st.sim_set :=
        mem_regions_of_pairs.mpr ⟨(b, a), hm, Or.inl rfl⟩
      have ha : a ∈ regions_of_pairs st.sim_set :=
        mem_regions_of_pairs.mpr ⟨(b, a), hm, Or.inr rfl⟩
      rw [h, Finset.insert_eq_self.mpr ha, Finset.insert_eq_self.mpr hb]
    · rw [add_set_of_ne_not_mem st hab hm]
      unfold LiveInv at h ⊢
      dsimp only
      ext x
      rw [h]
      simp only [Finset.mem_insert]
      constructor
      · rintro (hxb | hxa | hx)
        · exact mem_regions_of_pairs.mpr
            ⟨(a, b), Finset.mem_insert_self _ _, Or.inr hxb.symm⟩
        · exact mem_regions_of_pairs.mpr
            ⟨(a, b), Finset.mem_insert_self _ _, Or.inl hxa.symm⟩
        · obtain ⟨p, hp, hc⟩ := mem_regions_of_pairs.mp hx
          exact mem_regions_of_pairs.mpr ⟨p, Finset.mem_insert_of_mem hp, hc⟩
      · intro hx
        obtain ⟨p, hp, hc⟩ := mem_regions_of_pairs.mp hx
        rcases Finset.mem_insert.mp hp with rfl | hp'
        · rcases hc with e | e
          · exact Or.inr (Or.inl e.symm)
          · exact Or.inl e.symm
        · exact Or.inr (Or.inr (mem_regions_of_pairs.mpr ⟨p, hp', hc⟩))

theorem LiveInv_remove_set {st st' : SimState} {s : Int × Int} (hL : LiveInv st)
    (h : remove_set st s = some st') : LiveInv st' := by
  obtain ⟨hsim, hcases⟩ := remove_set_cases h
  have hsub : st'.sim_set ⊆ st.sim_set := by
    rw [hsim]
    exact Finset.Subset.trans (Finset.erase_subset _ _) (Finset.erase_subset _ _)
  have key : ∀ x : Int, x ∈ st'.region_set ↔
      x ∈ st.region_set ∧ (x = s.1 → x ∈ regions_of_pairs st'.sim_set) ∧
        (x = s.2 → x ∈ regions_of_pairs st'.sim_set) := by
    intro x
    rcases hcases with ⟨h1, h2, hreg⟩ | ⟨h1, h2, hreg⟩ | ⟨h1, h2, hreg⟩ | ⟨h1, h2, hreg⟩
    · have hs1 : s.1 ∉ regions_of_pairs st'.sim_set := filter_contains_empty_iff.mp h1
      have hs2 : s.2 ∉ regions_of_pairs st'.sim_set := filter_contains_empty_iff.mp h2
      rw [hreg]
      simp only [Finset.mem_erase]
      constructor
      · rintro ⟨hx2, hx1, hxR⟩
        exact ⟨hxR, fun e => absurd e hx1, fun e => absurd e hx2⟩
      · rintro ⟨hxR, hi1, hi2⟩
        refine ⟨fun e => hs2 ?_, fun e => hs1 ?_, hxR⟩
        · rw [← e]; exact hi2 e
        · rw [← e]; exact hi1 e
    · have hs1 : s.1 ∉ regions_of_pairs st'.sim_set := filter_contains_empty_iff.mp h1
      have hs2 : s.2 ∈ regions_of_pairs st'.sim_set := by
        by_contra hcon
        exact h2 (filter_contains_empty_iff.mpr hcon)
      rw [hreg]
      simp only [Finset.mem_erase]
      constructor
      · rintro ⟨hx1, hxR⟩
        exact ⟨hxR, fun e => absurd e hx1, fun e => by rw [e]; exact hs2⟩
      · rintro ⟨hxR, hi1, _⟩
        exact ⟨fun e => hs1 (by rw [← e]; exact hi1 e), hxR⟩
    · have hs1 : s.1 ∈ regions_of_pairs st'.sim_set := by
        by_contra hcon
        exact h1 (filter_contains_empty_iff.mpr hcon)
      have hs2 : s.2 ∉ regions_of_pairs st'.sim_set := filter_contains_empty_iff.mp h2
      rw [hreg]
      simp only [Finset.mem_erase]
      constructor
      · rintro ⟨hx2, hxR⟩
        exact ⟨hxR, fun e => by rw [e]; exact hs1, fun e => absurd e hx2⟩
      · rintro ⟨hxR, _, hi2⟩
        exact ⟨fun e => hs2 (by rw [← e]; exact hi2 e), hxR⟩
    · have hs1 : s.1 ∈ regions_of_pairs st'.sim_set := by
        by_contra hcon
        exact h1 (filter_contains_empty_iff.mpr hcon)
      have hs2 : s.2 ∈ regions_of_pairs st'.sim_set := by
        by_contra hcon
        exact h2 (filter_contains_empty_iff.mpr hcon)
      rw [hreg]
      exact ⟨fun hxR => ⟨hxR, fun e => by rw [e]; exact hs1, fun e => by rw [e]; exact hs2⟩,
        fun h' => h'.1⟩
  unfold LiveInv
  ext x
  rw [key x]
  constructor
  · rintro ⟨hxR, hi1, hi2⟩
    by_cases e1 : x = s.1
    · exact hi1 e1
    · by_cases e2 : x = s.2
      · exact hi2 e2
      · rw [hsim, rop_erase_iff e1 e2]
        rw [hL] at hxR
        exact hxR
  · intro hx
    refine ⟨?_, fun _ => hx, fun _ => hx⟩
    rw [hL]
    exact rop_mono hsub hx

theorem LiveInv_cond_add {st : SimState} {a b : Int} (cond : Prop) [Decidable cond]
    (h : LiveInv st) : LiveInv (if cond then add_set st a b else st) := by
  split_ifs
  · exact LiveInv_add_set h
  · exact h

theorem LiveInv_scan_pixel {img : LabelImage} {st : SimState} {r c : Nat}
    (h : LiveInv st) : LiveInv (scan_pixel img st r c) := by
  dsimp only [scan_pixel]
  exact LiveInv_cond_add _ (LiveInv_cond_add _ (LiveInv_cond_add _ (LiveInv_cond_add _ h)))

theorem LiveInv_build_sim (img : LabelImage) : LiveInv (build_sim img) := by
  unfold build_sim
  apply foldl_pres LiveInv
  · intro st r _ h
    apply foldl_pres LiveInv
    · intro st' c _ h'
      exact LiveInv_scan_pixel h'
    · exact h
  · show (∅ : Finset Int) = regions_of_pairs ∅
    ext x
    simp [mem_regions_of_pairs]

/-- C5: in every reachable state the live-region set equals the set of labels
occurring in some surviving pair; hence `region_count` (its cardinality) counts
the labels in surviving pairs, and a label contained in no surviving pair is not
live. -/
theorem c5_liveness_invariant (img : LabelImage) (st : SimState) (h : Reachable img st) :
    st.region_set = regions_of_pairs st.sim_set ∧
    st.region_set.card = (regions_of_pairs st.sim_set).card ∧
    ∀ x : Int, (∀ p ∈ st.sim_set, ¬pair_contains x p) → x ∉ st.region_set := by
  have hL : LiveInv st := by
    induction h with
    | base => exact LiveInv_build_sim img
    | add st a b _ ih => exact LiveInv_add_set ih
    | remove st st' s _ heq ih => exact LiveInv_remove_set ih heq
  refine ⟨hL, by rw [hL], ?_⟩
  intro x hx hmem
  rw [hL] at hmem
  obtain ⟨p, hp, hc⟩ := mem_regions_of_pairs.mp hmem
  exact hx p hp hc

/-- C5 witness: the invariant at the construction state of the 1×2 image. -/
theorem c5_liveness_invariant_witness :
    Reachable img12 (build_sim img12) ∧
    (build_sim img12).region_set = regions_of_pairs (build_sim img12).sim_set :=
  ⟨Reachable.base, (c5_liveness_invariant img12 (build_sim img12) Reachable.base).1⟩

theorem mem_get_indices {img : LabelImage} {region : Int} {p : Nat × Nat} :
    p ∈ get_indices_of_region img region ↔
      p.1 < img.height ∧ p.2 < img.width ∧ img.lab p.1 p.2 = region := by
  obtain ⟨r, c⟩ := p
  simp only [get_indices_of_region, List.mem_flatMap, List.mem_filterMap, List.mem_range]
  constructor
  · rintro ⟨r', hr', c', hc', he⟩
    split_ifs at he with hlab
    · obtain ⟨rfl, rfl⟩ := Prod.mk.inj (Option.some.inj he)
      exact ⟨hr', hc', hlab⟩
  · rintro ⟨hr, hc, hlab⟩
    exact ⟨r, hr, c, hc, by rw [if_pos hlab]⟩

/-- C6 amended: for a region label that occurs nowhere in the label image,
`get_indices_of_region` returns the empty coordinate list without error, but
`create_bounding_box` then takes `min` of an empty sequence and raises
(`ValueError`, modelled as `none`) instead of returning a zero-area box. -/
theorem c6_absent_region_queries (img : LabelImage) (region : Int)
    (h : ∀ r < img.height, ∀ c < img.width, img.lab r c ≠ region) :
    get_indices_of_region img region = [] ∧ create_bounding_box img region = none := by
  have hnil : get_indices_of_region img region = [] := by
    rcases he : get_indices_of_region img region with _ | ⟨p, ps⟩
    · rfl
    · have hp : p ∈ get_indices_of_region img region := by
        rw [he]
        exact List.mem_cons_self p ps
      obtain ⟨h1, h2, h3⟩ := mem_get_indices.mp hp
      exact absurd h3 (h p.1 h1 p.2 h2)
  refine ⟨hnil, ?_⟩
  simp only [create_bounding_box, hnil]

/-- C6 witness: instantiated at the 3×3 test image and the absent label 0. -/
theorem c6_absent_region_queries_witness :
    (∀ r < img3.height, ∀ c < img3.width, img3.lab r c ≠ 0) ∧
    (get_indices_of_region img3 0 = [] ∧ create_bounding_box img3 0 = none) :=
  ⟨by decide, c6_absent_region_queries img3 0 (by decide)⟩

/-- C6 counterexample: on the 3×3 test image, querying the absent label 0 makes
`create_bounding_box` raise (`none`), not return an empty or zero-area box as the
claim states (the coordinate query does return the empty list). -/
theorem c6_bounding_box_raises :
    get_indices_of_region img3 0 = [] ∧ create_bounding_box img3 0 = none := by
  decide

theorem create_isSome_of_ne_nil {img : LabelImage} {region : Int}
    (h : get_indices_of_region img region ≠ []) :
    (create_bounding_box img region).isSome := by
  unfold create_bounding_box
  rcases he : get_indices_of_region img region with _ | ⟨q, qs⟩
  · exact absurd he h
  · rfl

/-- C7 amended: `__init__` never compares the label image's and the color
image's dimensions — construction succeeds for every label image, color image
and disjoint set, mismatched dimensions included (the cached-bounding-box loop
always succeeds because every discovered region has at least one pixel). -/
theorem c7_init_never_fails (region_image : LabelImage) (image : ColorImage)
    (ds : DisjointSet) : (simularity_set_init region_image image ds).isSome = true := by
  have hcond : ∀ region ∈ (build_sim region_image).region_set,
      (create_bounding_box region_image region).isSome := by
    intro region hreg
    obtain ⟨p, hin, hlab⟩ := (build_sim_inv region_image).2.2 region hreg
    have hp : p ∈ get_indices_of_region region_image region :=
      mem_get_indices.mpr ⟨hin.1, hin.2, hlab⟩
    exact create_isSome_of_ne_nil (by
      intro he
      rw [he] at hp
      exact List.not_mem_nil p hp)
  simp only [simularity_set_init, if_pos hcond, Option.isSome_some]

/-- C7 counterexample: a 1×2 label image and a 5×7 color image disagree in both
dimensions, yet construction succeeds instead of failing. -/
theorem c7_mismatched_dims_accepted :
    (img12.height, img12.width) ≠ (colorImg57.height, colorImg57.width) ∧
    (simularity_set_init img12 colorImg57 ds223).isSome = true := by
  decide
